import Mathlib

/-! Crappypedia: the search redirector (`frontend/services/search.js`)

The script wires a text field (`searchInput`) and a button (`searchBtn`):

```
button.addEventListener('click', () => {
    const query = input.value.trim();
    if (query) {
        window.location.href = `https://en.wikipedia.org/wiki/${encodeURIComponent(query)}`;
    }
});
input.addEventListener('keypress', (e) => {
    if (e.key === 'Enter') {
        button.click();
    }
});
```

JavaScript strings are finite sequences of 16-bit code units, so a string is a
list of `Fin 65536`.  The built-ins the script calls (`String.prototype.trim`,
`ToBoolean`, `encodeURIComponent`, template-literal concatenation, listener
dispatch) are embedded after their ECMA-262 / DOM definitions.
-/

namespace Crappypedia

/-! ## Strings -/

/-- A UTF-16 code unit. -/
abbrev CodeUnit := Fin 65536

/-- A JavaScript string value: a finite sequence of UTF-16 code units. -/
abbrev JSString := List CodeUnit

/-- UTF-16 code units of one Unicode scalar value (ECMA-262 `UTF16EncodeCodePoint`). -/
def utf16EncodeCodePoint (cp : Nat) : JSString :=
  if cp ≤ 0xFFFF then [Fin.ofNat cp]
  else [Fin.ofNat ((cp - 0x10000) / 0x400 + 0xD800), Fin.ofNat ((cp - 0x10000) % 0x400 + 0xDC00)]

/-- The JavaScript string denoted by a source-text literal. -/
def js (s : String) : JSString :=
  s.toList.flatMap (fun c => utf16EncodeCodePoint c.toNat)

/-! ## `String.prototype.trim` -/

/-- ECMA-262 `WhiteSpace` and `LineTerminator` code points: the characters `trim` strips. -/
def isWhiteSpace (c : CodeUnit) : Bool :=
  c.val = 0x09 || c.val = 0x0A || c.val = 0x0B || c.val = 0x0C || c.val = 0x0D ||
  c.val = 0x20 || c.val = 0xA0 || c.val = 0x1680 ||
  (0x2000 ≤ c.val && c.val ≤ 0x200A) ||
  c.val = 0x2028 || c.val = 0x2029 || c.val = 0x202F || c.val = 0x205F ||
  c.val = 0x3000 || c.val = 0xFEFF

/-- ECMA-262 `TrimString(S, start)`. -/
def trimStart (s : JSString) : JSString := s.dropWhile isWhiteSpace

/-- ECMA-262 `TrimString(S, end)`. -/
def trimEnd (s : JSString) : JSString := (s.reverse.dropWhile isWhiteSpace).reverse

/-- ECMA-262 `TrimString(S, start+end)`, i.e. `s.trim()`. -/
def trim (s : JSString) : JSString := trimEnd (trimStart s)

/-- ECMA-262 `ToBoolean` on a string: false exactly for the empty string. -/
def toBoolean (s : JSString) : Bool := !s.isEmpty

/-! ## `encodeURIComponent` -/

/-- The exceptions the script can raise. -/
inductive JSError where
  | uriError
  deriving DecidableEq, Repr

instance instDecidableEqExcept {ε α : Type} [DecidableEq ε] [DecidableEq α] :
    DecidableEq (Except ε α)
  | .ok a, .ok b => if h : a = b then isTrue (by rw [h]) else isFalse (fun e => h (by cases e; rfl))
  | .error a, .error b =>
    if h : a = b then isTrue (by rw [h]) else isFalse (fun e => h (by cases e; rfl))
  | .ok _, .error _ => isFalse (fun e => by cases e)
  | .error _, .ok _ => isFalse (fun e => by cases e)

/-- ASCII letters and digits. -/
def isAsciiAlnum (c : CodeUnit) : Bool :=
  (0x30 ≤ c.val && c.val ≤ 0x39) || (0x41 ≤ c.val && c.val ≤ 0x5A) ||
  (0x61 ≤ c.val && c.val ≤ 0x7A)

/-- The set `encodeURIComponent` leaves alone: ASCII word characters and the marks
`-`, `.`, `!`, `~`, `*`, apostrophe, `(`, `)`. -/
def uriUnescaped (c : CodeUnit) : Bool :=
  isAsciiAlnum c || c.val = 0x5F ||
  c.val = 0x2D || c.val = 0x2E || c.val = 0x21 || c.val = 0x7E || c.val = 0x2A ||
  c.val = 0x27 || c.val = 0x28 || c.val = 0x29

/-- Leading (high) surrogate 0xD800..0xDBFF. -/
def isLeadingSurrogate (c : CodeUnit) : Bool := 0xD800 ≤ c.val && c.val ≤ 0xDBFF

/-- Trailing (low) surrogate 0xDC00..0xDFFF. -/
def isTrailingSurrogate (c : CodeUnit) : Bool := 0xDC00 ≤ c.val && c.val ≤ 0xDFFF

/-- ECMA-262 `UTF16SurrogatePairToCodePoint`. -/
def utf16SurrogatePairToCodePoint (lead trail : CodeUnit) : Nat :=
  (lead.val - 0xD800) * 0x400 + (trail.val - 0xDC00) + 0x10000

/-- The UTF-8 octets of a code point. -/
def utf8Octets (cp : Nat) : List Nat :=
  if cp < 0x80 then [cp]
  else if cp < 0x800 then [0xC0 + cp / 0x40, 0x80 + cp % 0x40]
  else if cp < 0x10000 then [0xE0 + cp / 0x1000, 0x80 + cp / 0x40 % 0x40, 0x80 + cp % 0x40]
  else [0xF0 + cp / 0x40000, 0x80 + cp / 0x1000 % 0x40, 0x80 + cp / 0x40 % 0x40,
        0x80 + cp % 0x40]

/-- The uppercase hexadecimal digit of a value below sixteen. -/
def hexDigit (d : Nat) : CodeUnit :=
  if d < 10 then Fin.ofNat (0x30 + d) else Fin.ofNat (0x41 + (d - 10))

/-- The code unit of `%`. -/
def percent : CodeUnit := 0x25

/-- One escaped octet: `%` followed by two uppercase hexadecimal digits. -/
def escapeOctet (b : Nat) : JSString := [percent, hexDigit (b / 16), hexDigit (b % 16)]

/-- The escape sequence of a code point: the triplets of its UTF-8 octets. -/
def escapeCodePoint (cp : Nat) : JSString := (utf8Octets cp).flatMap escapeOctet

/-- ECMA-262 `Encode(string, "")` as run by `encodeURIComponent`: units of the unescaped set
are copied; any other unit starts a code point (`CodePointAt`), an unpaired surrogate throws
`URIError`, and otherwise the code point is replaced by its escaped UTF-8 octets. -/
def encodeURIComponent : JSString → Except JSError JSString
  | [] => .ok []
  | c :: rest =>
    if uriUnescaped c then
      (encodeURIComponent rest).map (fun r => c :: r)
    else if !isLeadingSurrogate c && !isTrailingSurrogate c then
      (encodeURIComponent rest).map (fun r => escapeCodePoint c.val ++ r)
    else if isTrailingSurrogate c then .error .uriError
    else
      match rest with
      | [] => .error .uriError
      | d :: rest2 =>
        if isTrailingSurrogate d then
          (encodeURIComponent rest2).map
            (fun r => escapeCodePoint (utf16SurrogatePairToCodePoint c d) ++ r)
        else .error .uriError

/-! ## The script -/

/-- The fixed prefix of the template literal. -/
def base : JSString := js "https://en.wikipedia.org/wiki/"

/-- What one run of the click listener does to `window.location.href`. -/
inductive Action where
  | noOp
  | navigate (url : JSString)
  deriving DecidableEq, Repr

/-- The body of the click listener, as a function of `input.value`: either it raises, or it
finishes having assigned `url` to `window.location.href` (`navigate url`) or not (`noOp`). -/
def attemptSearch (rawInput : JSString) : Except JSError Action :=
  let query := trim rawInput
  if toBoolean query then
    (encodeURIComponent query).map (fun e => Action.navigate (base ++ e))
  else .ok Action.noOp

/-! ## `String.prototype.isWellFormed` and code points -/

/-- ECMA-262 `String.prototype.isWellFormed`: no unpaired surrogate code unit. -/
def isWellFormed : JSString → Bool
  | [] => true
  | c :: rest =>
    if isLeadingSurrogate c then
      match rest with
      | [] => false
      | d :: rest2 => isTrailingSurrogate d && isWellFormed rest2
    else if isTrailingSurrogate c then false
    else isWellFormed rest

/-- The code points of a string (ECMA-262 `StringToCodePoints`), defined when the string has
no unpaired surrogate. -/
def codePoints : JSString → Option (List Nat)
  | [] => some []
  | c :: rest =>
    if isLeadingSurrogate c then
      match rest with
      | [] => none
      | d :: rest2 =>
        if isTrailingSurrogate d then
          (codePoints rest2).map (fun l => utf16SurrogatePairToCodePoint c d :: l)
        else none
    else if isTrailingSurrogate c then none
    else (codePoints rest).map (fun l => c.val :: l)

/-! ## `decodeURIComponent` -/

/-- Value of a hexadecimal digit, either case. -/
def hexValue (c : CodeUnit) : Option Nat :=
  if 0x30 ≤ c.val ∧ c.val ≤ 0x39 then some (c.val - 0x30)
  else if 0x41 ≤ c.val ∧ c.val ≤ 0x46 then some (c.val - 0x41 + 10)
  else if 0x61 ≤ c.val ∧ c.val ≤ 0x66 then some (c.val - 0x61 + 10)
  else none

/-- ECMA-262 `ParseHexOctet` on the two units after a `%`. -/
def parseHexOctet (h1 h2 : CodeUnit) : Option Nat :=
  match hexValue h1, hexValue h2 with
  | some a, some b => some (16 * a + b)
  | _, _ => none

/-- Number of leading one bits of an octet, capped at five. -/
def leadingOnes (b : Nat) : Nat :=
  if b < 0x80 then 0 else if b < 0xC0 then 1 else if b < 0xE0 then 2
  else if b < 0xF0 then 3 else if b < 0xF8 then 4 else 5

/-- Reads `n` further escapes `%HH`, returning their octets and the rest of the string. -/
def readContinuation : Nat → JSString → Option (List Nat × JSString)
  | 0, s => some ([], s)
  | n + 1, p :: h1 :: h2 :: rest =>
    if p = percent then
      match parseHexOctet h1 h2, readContinuation n rest with
      | some b, some (bs, r) => some (b :: bs, r)
      | _, _ => none
    else none
  | _ + 1, _ => none

/-- Continuation octet `10xxxxxx`. -/
def isContinuation (b : Nat) : Bool := 0x80 ≤ b && b < 0xC0

/-- The code point of a multi-octet UTF-8 sequence, when the sequence is valid: continuation
octets in range, shortest form, no surrogate, at most 0x10FFFF. -/
def utf8CodePoint : List Nat → Option Nat
  | [b0, b1] =>
    let v := (b0 - 0xC0) * 0x40 + (b1 - 0x80)
    if 0xC0 ≤ b0 ∧ b0 < 0xE0 ∧ isContinuation b1 ∧ 0x80 ≤ v then some v else none
  | [b0, b1, b2] =>
    let v := (b0 - 0xE0) * 0x1000 + (b1 - 0x80) * 0x40 + (b2 - 0x80)
    if 0xE0 ≤ b0 ∧ b0 < 0xF0 ∧ isContinuation b1 ∧ isContinuation b2 ∧ 0x800 ≤ v ∧
        ¬ (0xD800 ≤ v ∧ v ≤ 0xDFFF) then some v else none
  | [b0, b1, b2, b3] =>
    let v := (b0 - 0xF0) * 0x40000 + (b1 - 0x80) * 0x1000 + (b2 - 0x80) * 0x40 + (b3 - 0x80)
    if 0xF0 ≤ b0 ∧ b0 < 0xF8 ∧ isContinuation b1 ∧ isContinuation b2 ∧ isContinuation b3 ∧
        0x10000 ≤ v ∧ v ≤ 0x10FFFF then some v else none
  | _ => none

/-- The loop of ECMA-262 `Decode(string, "")`; every iteration consumes at least one unit, so
`fuel` at least the length of the string is never exhausted. -/
def decodeLoop : Nat → JSString → Except JSError JSString
  | _, [] => .ok []
  | 0, _ :: _ => .error .uriError
  | fuel + 1, c :: rest =>
    if c ≠ percent then (decodeLoop fuel rest).map (fun r => c :: r)
    else
      match rest with
      | h1 :: h2 :: rest1 =>
        match parseHexOctet h1 h2 with
        | none => .error .uriError
        | some b =>
          let n := leadingOnes b
          if n = 0 then (decodeLoop fuel rest1).map (fun r => Fin.ofNat b :: r)
          else if n = 1 ∨ 4 < n then .error .uriError
          else
            match readContinuation (n - 1) rest1 with
            | none => .error .uriError
            | some (bs, rest2) =>
              match utf8CodePoint (b :: bs) with
              | none => .error .uriError
              | some v => (decodeLoop fuel rest2).map (fun r => utf16EncodeCodePoint v ++ r)
      | _ => .error .uriError

/-- The built-in `decodeURIComponent`: percent-decoding with UTF-8 interpretation of the
octets. -/
def decodeURIComponent (s : JSString) : Except JSError JSString := decodeLoop s.length s

/-! ## Percent-encoding as the specification words it -/

/-- RFC 3986 `unreserved`: ASCII letters, digits, `-`, `.`, `_`, `~`. -/
def rfc3986Unreserved (cp : Nat) : Bool :=
  (0x30 ≤ cp && cp ≤ 0x39) || (0x41 ≤ cp && cp ≤ 0x5A) || (0x61 ≤ cp && cp ≤ 0x7A) ||
  cp = 0x2D || cp = 0x2E || cp = 0x5F || cp = 0x7E

/-- The characters `encodeURIComponent` keeps: RFC 3986 `unreserved` and `!`, `*`, the
apostrophe, `(`, `)`. -/
def componentUnescaped (cp : Nat) : Bool :=
  rfc3986Unreserved cp || cp = 0x21 || cp = 0x2A || cp = 0x27 || cp = 0x28 || cp = 0x29

/-- Percent-encoding of a sequence of code points relative to a set of characters that stay:
a kept character stands for itself, any other is replaced by the `%HH` triplets of its UTF-8
octets. -/
def percentEncode (keep : Nat → Bool) (cps : List Nat) : JSString :=
  cps.flatMap (fun cp => if keep cp then utf16EncodeCodePoint cp else escapeCodePoint cp)

/-! ## The page and its two listeners -/

/-- The state the script can observe or change. -/
structure Page where
  /-- Field `input.value`. -/
  value : JSString
  /-- The string last assigned to `window.location.href` (how the browser parses and
  normalises it is outside the model). -/
  href : JSString
  deriving DecidableEq, Repr

/-- The two elements the script looks up. -/
inductive Element where
  | searchInput
  | searchBtn
  deriving DecidableEq, Repr

/-- The events delivered to the elements; a keypress carries `e.key`. -/
inductive Event where
  | click
  | keypress (key : JSString)
  deriving DecidableEq, Repr

/-- The result of delivering one event: the page afterwards and, for every run of the click
listener it caused, how that run ended (a raised exception is reported and the dispatch goes
on). -/
structure Outcome where
  page : Page
  searches : List (Except JSError Action)
  deriving DecidableEq

/-- The assignment `window.location.href = url`, when the listener reaches it. -/
def perform (p : Page) : Except JSError Action → Page
  | .ok (Action.navigate url) => { p with href := url }
  | .ok Action.noOp => p
  | .error _ => p

/-- The click listener of `searchBtn`, run on a page. -/
def clickListener (p : Page) : Outcome :=
  let r := attemptSearch p.value
  { page := perform p r, searches := [r] }

/-- The call `button.click()`: a click event is dispatched at `searchBtn`, whose only listener
is the click listener. -/
def buttonClick (p : Page) : Outcome := clickListener p

/-- The keypress listener of `searchInput`. -/
def keypressListener (key : JSString) (p : Page) : Outcome :=
  if key = js "Enter" then buttonClick p else { page := p, searches := [] }

/-- Delivery of an event to an element: the listeners registered for it run. -/
def dispatch : Element → Event → Page → Outcome
  | .searchBtn, .click, p => clickListener p
  | .searchInput, .keypress key, p => keypressListener key p
  | _, _, p => { page := p, searches := [] }

/-- What can happen to the page between loads: the user edits the field, or an event is
delivered. -/
inductive Step where
  | edit (text : JSString)
  | event (target : Element) (e : Event)
  deriving DecidableEq, Repr

/-- One step of the page. -/
def step (p : Page) : Step → Page
  | .edit text => { p with value := text }
  | .event target e => (dispatch target e p).page

/-- A history of steps, oldest first. -/
def run (p : Page) (history : List Step) : Page := history.foldl step p

/-! ## Auxiliary notions used to state the properties -/

/-- A Unicode scalar value: a code point that is not a surrogate. -/
def isScalar (cp : Nat) : Prop := cp < 0x110000 ∧ ¬ (0xD800 ≤ cp ∧ cp ≤ 0xDFFF)

instance instDecidableIsScalar (cp : Nat) : Decidable (isScalar cp) := by
  unfold isScalar; infer_instance

/-- The pieces the encoded text is made of: one kept character, or one `%HH` triplet per
UTF-8 octet. -/
def encodedPieces (keep : Nat → Bool) (cps : List Nat) : List JSString :=
  cps.flatMap (fun cp =>
    if keep cp then [utf16EncodeCodePoint cp] else (utf8Octets cp).map escapeOctet)

/-- What the specification says happens to a query of letters, digits, spaces and plus signs:
a space becomes `%20`, a plus sign `%2B`, anything else stays. -/
def plainEscape (c : CodeUnit) : JSString :=
  if c = 0x20 then js "%20" else if c = 0x2B then js "%2B" else [c]

/-- The units of a plain query: ASCII letters, ASCII digits, the space and the plus sign. -/
def isPlainUnit (c : CodeUnit) : Bool := isAsciiAlnum c || c.val = 0x20 || c.val = 0x2B

/-- The characters that would end the path segment or start a query or fragment, and the
space: `U+0020`, `/`, `?`, `&`, `#`. -/
def isDelimiter (c : CodeUnit) : Bool :=
  c.val = 0x20 || c.val = 0x2F || c.val = 0x3F || c.val = 0x26 || c.val = 0x23

/-- The triplet the specification expects for each delimiter; other code points as the
built-in treats them. -/
def delimiterEscape (cp : Nat) : JSString :=
  if cp = 0x20 then js "%20" else if cp = 0x2F then js "%2F" else if cp = 0x3F then js "%3F"
  else if cp = 0x26 then js "%26" else if cp = 0x23 then js "%23"
  else percentEncode componentUnescaped [cp]

/-- A field value holding one unpaired leading surrogate. -/
def loneLeading : JSString := [0xD800]

/-- A field value ending in an unpaired trailing surrogate: `a` followed by `U+DC00`. -/
def danglingTrailing : JSString := [0x61, 0xDC00]

/-- A field value whose leading surrogate is followed by a letter instead of a trailing
surrogate: `U+D83D` followed by `x`. -/
def brokenPair : JSString := [0xD83D, 0x78]


/-! ## Trimming -/

theorem dropWhile_all_iff (p : CodeUnit → Bool) (l : JSString) :
    (∀ c ∈ l.dropWhile p, p c = true) ↔ ∀ c ∈ l, p c = true := by
  induction l with
  | nil => simp
  | cons a l ih =>
    by_cases h : p a = true
    · simp [List.dropWhile_cons, h, ih]
    · simp [List.dropWhile_cons, h]

theorem trim_eq_nil_iff (s : JSString) : trim s = [] ↔ ∀ c ∈ s, isWhiteSpace c = true := by
  unfold trim trimEnd trimStart
  rw [List.reverse_eq_nil_iff, List.dropWhile_eq_nil_iff]
  simp only [List.mem_reverse]
  exact dropWhile_all_iff isWhiteSpace s

theorem toBoolean_eq_true_iff (s : JSString) : toBoolean s = true ↔ s ≠ [] := by
  cases s <;> simp [toBoolean]

/-! ## Code units -/

theorem ofNat_val (c : CodeUnit) : (Fin.ofNat c.val : CodeUnit) = c := by
  apply Fin.ext
  simp [Fin.ofNat, Nat.mod_eq_of_lt c.isLt]

theorem utf16EncodeCodePoint_val (c : CodeUnit) : utf16EncodeCodePoint c.val = [c] := by
  have h := c.isLt
  unfold utf16EncodeCodePoint
  rw [if_pos (by omega), ofNat_val]

theorem uriUnescaped_eq (c : CodeUnit) : uriUnescaped c = componentUnescaped c.val := by
  rw [Bool.eq_iff_iff]
  simp only [uriUnescaped, componentUnescaped, rfc3986Unreserved, isAsciiAlnum, Bool.or_eq_true,
    Bool.and_eq_true, decide_eq_true_eq]
  omega

theorem uriUnescaped_lt (c : CodeUnit) (h : uriUnescaped c = true) : c.val < 0x80 := by
  simp only [uriUnescaped, isAsciiAlnum, Bool.or_eq_true, Bool.and_eq_true,
    decide_eq_true_eq] at h
  omega

theorem uriUnescaped_not_surrogate (c : CodeUnit) (h : uriUnescaped c = true) :
    isLeadingSurrogate c = false ∧ isTrailingSurrogate c = false := by
  have := uriUnescaped_lt c h
  simp only [isLeadingSurrogate, isTrailingSurrogate, Bool.and_eq_false_iff, decide_eq_false_iff_not]
  omega

theorem surrogate_exclusive (c : CodeUnit) (h : isTrailingSurrogate c = true) :
    isLeadingSurrogate c = false := by
  simp only [isLeadingSurrogate, isTrailingSurrogate, Bool.and_eq_false_iff, Bool.and_eq_true,
    decide_eq_false_iff_not, decide_eq_true_eq] at *
  omega

theorem pair_not_kept (c d : CodeUnit) :
    componentUnescaped (utf16SurrogatePairToCodePoint c d) = false := by
  rw [Bool.eq_false_iff]
  simp only [componentUnescaped, rfc3986Unreserved, utf16SurrogatePairToCodePoint, ne_eq,
    Bool.or_eq_true, Bool.and_eq_true, decide_eq_true_eq]
  omega

/-! ## `encodeURIComponent` against the code-point view -/

theorem encodeURIComponent_cons (c : CodeUnit) (rest : JSString) :
    encodeURIComponent (c :: rest) =
      if uriUnescaped c then
        (encodeURIComponent rest).map (fun r => c :: r)
      else if !isLeadingSurrogate c && !isTrailingSurrogate c then
        (encodeURIComponent rest).map (fun r => escapeCodePoint c.val ++ r)
      else if isTrailingSurrogate c then .error .uriError
      else
        match rest with
        | [] => .error .uriError
        | d :: rest2 =>
          if isTrailingSurrogate d then
            (encodeURIComponent rest2).map
              (fun r => escapeCodePoint (utf16SurrogatePairToCodePoint c d) ++ r)
          else .error .uriError := by
  rw [encodeURIComponent.eq_def]; rfl

theorem codePoints_cons (c : CodeUnit) (rest : JSString) :
    codePoints (c :: rest) =
      if isLeadingSurrogate c then
        match rest with
        | [] => none
        | d :: rest2 =>
          if isTrailingSurrogate d then
            (codePoints rest2).map (fun l => utf16SurrogatePairToCodePoint c d :: l)
          else none
      else if isTrailingSurrogate c then none
      else (codePoints rest).map (fun l => c.val :: l) := by
  rw [codePoints.eq_def]; rfl

theorem isWellFormed_cons (c : CodeUnit) (rest : JSString) :
    isWellFormed (c :: rest) =
      if isLeadingSurrogate c then
        match rest with
        | [] => false
        | d :: rest2 => isTrailingSurrogate d && isWellFormed rest2
      else if isTrailingSurrogate c then false
      else isWellFormed rest := by
  rw [isWellFormed.eq_def]; rfl

theorem percentEncode_cons (keep : Nat → Bool) (cp : Nat) (cps : List Nat) :
    percentEncode keep (cp :: cps) =
      (if keep cp then utf16EncodeCodePoint cp else escapeCodePoint cp) ++
        percentEncode keep cps := by
  simp [percentEncode]

/-- The built-in agrees with percent-encoding the code points relative to the set it keeps,
and raises exactly when the string has no code-point reading. -/
theorem encodeURIComponent_eq (t : JSString) :
    encodeURIComponent t =
      match codePoints t with
      | some cps => .ok (percentEncode componentUnescaped cps)
      | none => .error .uriError := by
  induction t using encodeURIComponent.induct with
  | case1 => rfl
  | case2 c rest h ih =>
    obtain ⟨h1, h2⟩ := uriUnescaped_not_surrogate c h
    rw [encodeURIComponent_cons, if_pos h, ih, codePoints_cons, h1, h2]
    cases hc : codePoints rest with
    | none => rfl
    | some cps =>
      simp [percentEncode_cons, Except.map, ← uriUnescaped_eq, h, utf16EncodeCodePoint_val]
  | case3 c rest h hs ih =>
    have h1 : isLeadingSurrogate c = false := by
      cases hl : isLeadingSurrogate c <;> simp [hl] at hs ⊢
    have h2 : isTrailingSurrogate c = false := by
      cases hl : isTrailingSurrogate c <;> simp [hl] at hs ⊢
    rw [encodeURIComponent_cons, if_neg h, if_pos hs, ih, codePoints_cons, h1, h2]
    cases hc : codePoints rest with
    | none => rfl
    | some cps =>
      simp [percentEncode_cons, Except.map, ← uriUnescaped_eq, h]
  | case4 c rest h hs ht =>
    rw [encodeURIComponent_cons, if_neg h, if_neg hs, if_pos ht, codePoints_cons,
      surrogate_exclusive c ht, ht]
    rfl
  | case5 c h hs ht =>
    have h1 : isLeadingSurrogate c = true := by
      cases hl : isLeadingSurrogate c <;> simp [hl, ht] at hs ⊢
    rw [encodeURIComponent_cons, if_neg h, if_neg hs, if_neg ht, codePoints_cons, h1]
    rfl
  | case6 c h hs ht d rest hd ih =>
    have h1 : isLeadingSurrogate c = true := by
      cases hl : isLeadingSurrogate c <;> simp [hl, ht] at hs ⊢
    rw [encodeURIComponent_cons, if_neg h, if_neg hs, if_neg ht, codePoints_cons, h1]
    simp only [hd, if_true, ih]
    cases hc : codePoints rest with
    | none => rfl
    | some cps =>
      simp [percentEncode_cons, Except.map, pair_not_kept]
  | case7 c h hs ht d rest hd =>
    have h1 : isLeadingSurrogate c = true := by
      cases hl : isLeadingSurrogate c <;> simp [hl, ht] at hs ⊢
    rw [encodeURIComponent_cons, if_neg h, if_neg hs, if_neg ht, codePoints_cons, h1]
    simp [hd]

theorem codePoints_isSome (t : JSString) : (codePoints t).isSome = isWellFormed t := by
  induction t using isWellFormed.induct with
  | case1 => rfl
  | case2 c h => rw [codePoints_cons, isWellFormed_cons, if_pos h, if_pos h]; rfl
  | case3 c h d rest ih =>
    rw [codePoints_cons, isWellFormed_cons, if_pos h, if_pos h]
    cases hd : isTrailingSurrogate d <;> simp [hd, ← ih]
  | case4 c rest h ht =>
    rw [codePoints_cons, isWellFormed_cons, if_neg h, if_neg h, if_pos ht, if_pos ht]; rfl
  | case5 c rest h ht ih =>
    rw [codePoints_cons, isWellFormed_cons, if_neg h, if_neg h, if_neg ht, if_neg ht, ← ih]
    simp

/-- The built-in returns exactly on the strings without unpaired surrogates. -/
theorem encodeURIComponent_ok_iff (t : JSString) :
    (∃ out, encodeURIComponent t = .ok out) ↔ isWellFormed t = true := by
  rw [encodeURIComponent_eq, ← codePoints_isSome]
  cases codePoints t <;> simp

theorem encodeURIComponent_error_iff (t : JSString) :
    encodeURIComponent t = .error .uriError ↔ isWellFormed t = false := by
  rw [encodeURIComponent_eq, ← codePoints_isSome]
  cases codePoints t <;> simp

theorem codePoints_spec (t : JSString) :
    ∀ cps, codePoints t = some cps →
      cps.flatMap utf16EncodeCodePoint = t ∧ ∀ cp ∈ cps, isScalar cp := by
  induction t using isWellFormed.induct with
  | case1 => intro cps h; simp [codePoints] at h; subst h; simp
  | case2 c h => intro cps hc; rw [codePoints_cons, if_pos h] at hc; simp at hc
  | case3 c h d rest ih =>
    intro cps hc
    rw [codePoints_cons, if_pos h] at hc
    cases hd : isTrailingSurrogate d with
    | false => simp [hd] at hc
    | true =>
      simp only [hd, if_true, Option.map_eq_some'] at hc
      obtain ⟨l, hl, rfl⟩ := hc
      obtain ⟨h1, h2⟩ := ih l hl
      have hcl := c.isLt
      have hdl := d.isLt
      simp only [isLeadingSurrogate, isTrailingSurrogate, Bool.and_eq_true,
        decide_eq_true_eq] at h hd
      constructor
      · rw [List.flatMap_cons, h1]
        have e1 : utf16EncodeCodePoint (utf16SurrogatePairToCodePoint c d) = [c, d] := by
          unfold utf16EncodeCodePoint utf16SurrogatePairToCodePoint
          rw [if_neg (by omega)]
          have a1 : ((c.val - 0xD800) * 0x400 + (d.val - 0xDC00) + 0x10000 - 0x10000) / 0x400
              + 0xD800 = c.val := by omega
          have a2 : ((c.val - 0xD800) * 0x400 + (d.val - 0xDC00) + 0x10000 - 0x10000) % 0x400
              + 0xDC00 = d.val := by omega
          rw [a1, a2, ofNat_val, ofNat_val]
        rw [e1]; rfl
      · intro cp hcp
        rcases List.mem_cons.mp hcp with rfl | hcp
        · unfold isScalar utf16SurrogatePairToCodePoint; omega
        · exact h2 cp hcp
  | case4 c rest h ht =>
    intro cps hc; rw [codePoints_cons, if_neg h, if_pos ht] at hc; simp at hc
  | case5 c rest h ht ih =>
    intro cps hc
    rw [codePoints_cons, if_neg h, if_neg ht] at hc
    simp only [Option.map_eq_some'] at hc
    obtain ⟨l, hl, rfl⟩ := hc
    obtain ⟨h1, h2⟩ := ih l hl
    have hcl := c.isLt
    simp only [isLeadingSurrogate, isTrailingSurrogate, Bool.and_eq_true,
      decide_eq_true_eq] at h ht
    constructor
    · rw [List.flatMap_cons, h1, utf16EncodeCodePoint_val]; rfl
    · intro cp hcp
      rcases List.mem_cons.mp hcp with rfl | hcp
      · unfold isScalar; omega
      · exact h2 cp hcp

/-! ## Decoding undoes encoding -/

theorem hexValue_hexDigit (d : Nat) (h : d < 16) : hexValue (hexDigit d) = some d := by
  interval_cases d <;> rfl

theorem parseHexOctet_hex (b : Nat) (h : b < 256) :
    parseHexOctet (hexDigit (b / 16)) (hexDigit (b % 16)) = some b := by
  unfold parseHexOctet
  rw [hexValue_hexDigit _ (by omega), hexValue_hexDigit _ (by omega)]
  simp only [Option.some.injEq]
  omega

theorem decodeLoop_succ_cons (fuel : Nat) (c : CodeUnit) (rest : JSString) :
    decodeLoop (fuel + 1) (c :: rest) =
      if c ≠ percent then (decodeLoop fuel rest).map (fun r => c :: r)
      else
        match rest with
        | h1 :: h2 :: rest1 =>
          match parseHexOctet h1 h2 with
          | none => .error .uriError
          | some b =>
            let n := leadingOnes b
            if n = 0 then (decodeLoop fuel rest1).map (fun r => Fin.ofNat b :: r)
            else if n = 1 ∨ 4 < n then .error .uriError
            else
              match readContinuation (n - 1) rest1 with
              | none => .error .uriError
              | some (bs, rest2) =>
                match utf8CodePoint (b :: bs) with
                | none => .error .uriError
                | some v => (decodeLoop fuel rest2).map (fun r => utf16EncodeCodePoint v ++ r)
        | _ => .error .uriError := by
  rw [decodeLoop.eq_def]; rfl

theorem decodeLoop_literal (fuel : Nat) (c : CodeUnit) (rest : JSString) (h : c ≠ percent) :
    decodeLoop (fuel + 1) (c :: rest) = (decodeLoop fuel rest).map (fun r => c :: r) := by
  rw [decodeLoop_succ_cons, if_pos h]

theorem decodeLoop_escape (fuel b : Nat) (rest : JSString) (h : b < 256) :
    decodeLoop (fuel + 1) (escapeOctet b ++ rest) =
      if leadingOnes b = 0 then (decodeLoop fuel rest).map (fun r => Fin.ofNat b :: r)
      else if leadingOnes b = 1 ∨ 4 < leadingOnes b then .error .uriError
      else
        match readContinuation (leadingOnes b - 1) rest with
        | none => .error .uriError
        | some (bs, rest2) =>
          match utf8CodePoint (b :: bs) with
          | none => .error .uriError
          | some v => (decodeLoop fuel rest2).map (fun r => utf16EncodeCodePoint v ++ r) := by
  simp only [escapeOctet, List.cons_append, List.nil_append]
  rw [decodeLoop_succ_cons]
  simp only [ne_eq, not_true_eq_false, if_false, parseHexOctet_hex b h]

theorem readContinuation_escape (n b : Nat) (rest : JSString) (h : b < 256) :
    readContinuation (n + 1) (escapeOctet b ++ rest) =
      match readContinuation n rest with
      | some (bs, r) => some (b :: bs, r)
      | none => none := by
  simp only [escapeOctet, List.cons_append, List.nil_append]
  rw [readContinuation]
  simp only [if_true, parseHexOctet_hex b h]
  cases readContinuation n rest <;> rfl


theorem readContinuation_zero (rest : JSString) : readContinuation 0 rest = some ([], rest) := by
  rw [readContinuation]

theorem leadingOnes_eq (b : Nat) :
    (b < 0x80 → leadingOnes b = 0) ∧ (0xC0 ≤ b → b < 0xE0 → leadingOnes b = 2) ∧
    (0xE0 ≤ b → b < 0xF0 → leadingOnes b = 3) ∧ (0xF0 ≤ b → b < 0xF8 → leadingOnes b = 4) := by
  unfold leadingOnes
  refine ⟨?_, ?_, ?_, ?_⟩ <;> intros <;> split_ifs <;> omega

theorem escapeCodePoint_append (cp : Nat) (rest : JSString) :
    escapeCodePoint cp ++ rest =
      if cp < 0x80 then escapeOctet cp ++ rest
      else if cp < 0x800 then
        escapeOctet (0xC0 + cp / 0x40) ++ (escapeOctet (0x80 + cp % 0x40) ++ rest)
      else if cp < 0x10000 then
        escapeOctet (0xE0 + cp / 0x1000) ++ (escapeOctet (0x80 + cp / 0x40 % 0x40) ++
          (escapeOctet (0x80 + cp % 0x40) ++ rest))
      else
        escapeOctet (0xF0 + cp / 0x40000) ++ (escapeOctet (0x80 + cp / 0x1000 % 0x40) ++
          (escapeOctet (0x80 + cp / 0x40 % 0x40) ++ (escapeOctet (0x80 + cp % 0x40) ++ rest))) := by
  unfold escapeCodePoint utf8Octets
  split_ifs <;> simp [List.flatMap_cons]

/-- Decoding the escape of one scalar value gives back its UTF-16 units. -/
theorem decodeLoop_escapeCodePoint (fuel cp : Nat) (rest : JSString) (hs : isScalar cp) :
    decodeLoop (fuel + 1) (escapeCodePoint cp ++ rest) =
      (decodeLoop fuel rest).map (fun r => utf16EncodeCodePoint cp ++ r) := by
  obtain ⟨hmax, hsur⟩ := hs
  rw [escapeCodePoint_append]
  by_cases h1 : cp < 0x80
  · rw [if_pos h1, decodeLoop_escape _ _ _ (by omega), (leadingOnes_eq cp).1 h1]
    simp only [if_true]
    have : utf16EncodeCodePoint cp = [Fin.ofNat cp] := by
      unfold utf16EncodeCodePoint; rw [if_pos (by omega)]
    rw [this]; rfl
  rw [if_neg h1]
  by_cases h2 : cp < 0x800
  · rw [if_pos h2, decodeLoop_escape _ _ _ (by omega),
      (leadingOnes_eq _).2.1 (by omega) (by omega)]
    simp only [OfNat.ofNat_ne_zero, if_false, Nat.reduceEqDiff, Nat.lt_irrefl, or_self,
      Nat.add_one_sub_one]
    rw [readContinuation_escape _ _ _ (by omega), readContinuation_zero]
    simp only
    have : utf8CodePoint [0xC0 + cp / 0x40, 0x80 + cp % 0x40] = some cp := by
      simp only [utf8CodePoint, isContinuation, Bool.and_eq_true, decide_eq_true_eq]
      rw [if_pos (by omega)]
      simp only [Option.some.injEq]; omega
    rw [this]; simp
  rw [if_neg h2]
  by_cases h3 : cp < 0x10000
  · rw [if_pos h3, decodeLoop_escape _ _ _ (by omega),
      (leadingOnes_eq _).2.2.1 (by omega) (by omega)]
    simp only [OfNat.ofNat_ne_zero, if_false, Nat.reduceEqDiff, Nat.lt_irrefl, or_self,
      Nat.add_one_sub_one]
    rw [readContinuation_escape _ _ _ (by omega), readContinuation_escape _ _ _ (by omega),
      readContinuation_zero]
    simp only
    have : utf8CodePoint [0xE0 + cp / 0x1000, 0x80 + cp / 0x40 % 0x40, 0x80 + cp % 0x40]
        = some cp := by
      simp only [utf8CodePoint, isContinuation, Bool.and_eq_true, decide_eq_true_eq]
      rw [if_pos (by omega)]
      simp only [Option.some.injEq]; omega
    rw [this]; simp
  · rw [if_neg h3, decodeLoop_escape _ _ _ (by omega),
      (leadingOnes_eq _).2.2.2 (by omega) (by omega)]
    simp only [OfNat.ofNat_ne_zero, if_false, Nat.reduceEqDiff, Nat.lt_irrefl, or_self,
      Nat.add_one_sub_one]
    rw [readContinuation_escape _ _ _ (by omega), readContinuation_escape _ _ _ (by omega),
      readContinuation_escape _ _ _ (by omega), readContinuation_zero]
    simp only
    have : utf8CodePoint [0xF0 + cp / 0x40000, 0x80 + cp / 0x1000 % 0x40,
        0x80 + cp / 0x40 % 0x40, 0x80 + cp % 0x40] = some cp := by
      simp only [utf8CodePoint, isContinuation, Bool.and_eq_true, decide_eq_true_eq]
      rw [if_pos (by omega)]
      simp only [Option.some.injEq]; omega
    rw [this]

/-- Decoding the percent-encoding of scalar values, relative to any set of kept characters
that are ASCII and not `%`, returns their UTF-16 form. -/
theorem decodeLoop_percentEncode (keep : Nat → Bool)
    (hkeep : ∀ cp, keep cp = true → cp < 0x80 ∧ cp ≠ 0x25) (cps : List Nat) :
    (∀ cp ∈ cps, isScalar cp) → ∀ fuel, (percentEncode keep cps).length ≤ fuel →
      decodeLoop fuel (percentEncode keep cps) = .ok (cps.flatMap utf16EncodeCodePoint) := by
  induction cps with
  | nil => intro _ fuel _; cases fuel <;> rfl
  | cons cp cps ih =>
    intro hall fuel hfuel
    have hcp : isScalar cp := hall cp (List.mem_cons_self _ _)
    have hrest : ∀ x ∈ cps, isScalar x := fun x hx => hall x (List.mem_cons_of_mem _ hx)
    rw [percentEncode_cons] at hfuel ⊢
    rw [List.flatMap_cons]
    by_cases hk : keep cp = true
    · obtain ⟨hlt, hne⟩ := hkeep cp hk
      have hu : utf16EncodeCodePoint cp = [Fin.ofNat cp] := by
        unfold utf16EncodeCodePoint; rw [if_pos (by omega)]
      rw [if_pos hk, hu] at hfuel ⊢
      simp only [List.cons_append, List.nil_append, List.length_cons] at hfuel ⊢
      obtain ⟨f, rfl⟩ : ∃ f, fuel = f + 1 := ⟨fuel - 1, by omega⟩
      have hp : (Fin.ofNat cp : CodeUnit) ≠ percent := by
        intro e
        have := congrArg Fin.val e
        simp [Fin.ofNat, percent] at this
        omega
      rw [decodeLoop_literal _ _ _ hp, ih hrest f (by omega)]
      rfl
    · rw [if_neg hk] at hfuel ⊢
      have hlen : 1 ≤ (escapeCodePoint cp).length := by
        unfold escapeCodePoint utf8Octets escapeOctet
        split_ifs <;> simp
      rw [List.length_append] at hfuel
      obtain ⟨f, rfl⟩ : ∃ f, fuel = f + 1 := ⟨fuel - 1, by omega⟩
      rw [decodeLoop_escapeCodePoint _ _ _ hcp, ih hrest f (by omega)]
      rfl

theorem componentUnescaped_ascii (cp : Nat) (h : componentUnescaped cp = true) :
    cp < 0x80 ∧ cp ≠ 0x25 := by
  simp only [componentUnescaped, rfc3986Unreserved, Bool.or_eq_true, Bool.and_eq_true,
    decide_eq_true_eq] at h
  omega

/-- Round trip: whatever `encodeURIComponent` returns, `decodeURIComponent` maps back. -/
theorem decode_encode (t out : JSString) (h : encodeURIComponent t = .ok out) :
    decodeURIComponent out = .ok t := by
  rw [encodeURIComponent_eq] at h
  cases hc : codePoints t with
  | none => rw [hc] at h; cases h
  | some cps =>
    rw [hc] at h
    simp only [Except.ok.injEq] at h
    subst h
    obtain ⟨h1, h2⟩ := codePoints_spec t cps hc
    unfold decodeURIComponent
    rw [decodeLoop_percentEncode componentUnescaped componentUnescaped_ascii cps h2 _ le_rfl, h1]

/-! ## Shape of the encoded text -/

theorem hexDigit_unescaped (d : Nat) (h : d < 16) : uriUnescaped (hexDigit d) = true := by
  interval_cases d <;> rfl

theorem escapeOctet_units (b : Nat) (h : b < 256) :
    ∀ c ∈ escapeOctet b, c = percent ∨ uriUnescaped c = true := by
  intro c hc
  simp only [escapeOctet, List.mem_cons, List.mem_singleton, List.not_mem_nil, or_false] at hc
  rcases hc with rfl | rfl | rfl
  · exact Or.inl rfl
  · exact Or.inr (hexDigit_unescaped _ (by omega))
  · exact Or.inr (hexDigit_unescaped _ (by omega))

theorem utf8Octets_lt (cp : Nat) (h : cp < 0x110000) : ∀ b ∈ utf8Octets cp, b < 256 := by
  intro b hb
  unfold utf8Octets at hb
  split_ifs at hb <;>
    simp only [List.mem_cons, List.mem_singleton, List.not_mem_nil, or_false] at hb <;> omega

theorem escapeCodePoint_units (cp : Nat) (h : cp < 0x110000) :
    ∀ c ∈ escapeCodePoint cp, c = percent ∨ uriUnescaped c = true := by
  intro c hc
  simp only [escapeCodePoint, List.mem_flatMap] at hc
  obtain ⟨b, hb, hcb⟩ := hc
  exact escapeOctet_units b (utf8Octets_lt cp h b hb) c hcb

/-- Every unit `encodeURIComponent` emits is `%` or a member of the unescaped set. -/
theorem percentEncode_units (cps : List Nat) (hs : ∀ cp ∈ cps, isScalar cp) :
    ∀ c ∈ percentEncode componentUnescaped cps, c = percent ∨ uriUnescaped c = true := by
  intro c hc
  simp only [percentEncode, List.mem_flatMap] at hc
  obtain ⟨cp, hcp, hc⟩ := hc
  by_cases hk : componentUnescaped cp = true
  · rw [if_pos hk] at hc
    have hlt := (componentUnescaped_ascii cp hk).1
    have hu : utf16EncodeCodePoint cp = [Fin.ofNat cp] := by
      unfold utf16EncodeCodePoint; rw [if_pos (by omega)]
    rw [hu, List.mem_singleton] at hc
    subst hc
    right
    rw [uriUnescaped_eq]
    have : (Fin.ofNat cp : CodeUnit).val = cp := by
      simp only [Fin.ofNat]; omega
    rw [this]; exact hk
  · rw [if_neg hk] at hc
    exact escapeCodePoint_units cp (hs cp hcp).1 c hc

theorem encodeURIComponent_units (t out : JSString) (h : encodeURIComponent t = .ok out) :
    ∀ c ∈ out, c = percent ∨ uriUnescaped c = true := by
  rw [encodeURIComponent_eq] at h
  cases hc : codePoints t with
  | none => rw [hc] at h; cases h
  | some cps =>
    rw [hc] at h
    simp only [Except.ok.injEq] at h
    subst h
    exact percentEncode_units cps (codePoints_spec t cps hc).2

theorem percentEncode_eq_flatten (keep : Nat → Bool) (cps : List Nat) :
    percentEncode keep cps = (encodedPieces keep cps).flatten := by
  induction cps with
  | nil => rfl
  | cons cp cps ih =>
    rw [percentEncode_cons, ih]
    simp only [encodedPieces, List.flatMap_cons, List.flatten_append]
    congr 1
    split_ifs
    · simp
    · simp [escapeCodePoint, List.flatMap, List.flatten]

theorem encodedPieces_shape (cps : List Nat) (hs : ∀ cp ∈ cps, isScalar cp) :
    ∀ p ∈ encodedPieces componentUnescaped cps,
      (∃ c : CodeUnit, p = [c] ∧ componentUnescaped c.val = true) ∨
      (∃ b, b < 256 ∧ p = escapeOctet b) := by
  intro p hp
  simp only [encodedPieces, List.mem_flatMap] at hp
  obtain ⟨cp, hcp, hp⟩ := hp
  by_cases hk : componentUnescaped cp = true
  · rw [if_pos hk, List.mem_singleton] at hp
    have hlt := (componentUnescaped_ascii cp hk).1
    have hu : utf16EncodeCodePoint cp = [Fin.ofNat cp] := by
      unfold utf16EncodeCodePoint; rw [if_pos (by omega)]
    have hv : (Fin.ofNat cp : CodeUnit).val = cp := by
      simp only [Fin.ofNat]; omega
    exact Or.inl ⟨Fin.ofNat cp, by rw [hp, hu], by rw [hv]; exact hk⟩
  · rw [if_neg hk, List.mem_map] at hp
    obtain ⟨b, hb, rfl⟩ := hp
    exact Or.inr ⟨b, utf8Octets_lt cp (hs cp hcp).1 b hb, rfl⟩

/-! ## The click listener as a function of the trimmed text -/

theorem attemptSearch_eq (s : JSString) :
    attemptSearch s =
      if trim s = [] then .ok Action.noOp
      else (encodeURIComponent (trim s)).map (fun e => Action.navigate (base ++ e)) := by
  unfold attemptSearch
  by_cases h : trim s = []
  · simp [h, toBoolean]
  · simp only [h, if_false]
    rw [if_pos ((toBoolean_eq_true_iff _).2 h)]

theorem attemptSearch_navigate_iff (s url : JSString) :
    attemptSearch s = .ok (.navigate url) ↔
      trim s ≠ [] ∧ ∃ e, encodeURIComponent (trim s) = .ok e ∧ url = base ++ e := by
  rw [attemptSearch_eq]
  by_cases h : trim s = []
  · simp [h]
  · simp only [h, if_false, ne_eq, not_false_eq_true, true_and]
    cases he : encodeURIComponent (trim s) with
    | error e => simp [Except.map]
    | ok e =>
      simp only [Except.map, Except.ok.injEq, Action.navigate.injEq, exists_eq_left']
      exact eq_comm

/-! ## Padding and plain queries -/

theorem dropWhile_append_left (p : CodeUnit → Bool) (pre l : JSString)
    (h : ∀ c ∈ pre, p c = true) : (pre ++ l).dropWhile p = l.dropWhile p := by
  induction pre with
  | nil => rfl
  | cons a pre ih =>
    have ha : p a = true := h a (List.mem_cons_self _ _)
    rw [List.cons_append, List.dropWhile_cons, if_pos ha]
    exact ih (fun c hc => h c (List.mem_cons_of_mem _ hc))

theorem dropWhile_append_right (p : CodeUnit → Bool) (l post : JSString)
    (h : ∃ c ∈ l, p c = false) : (l ++ post).dropWhile p = l.dropWhile p ++ post := by
  induction l with
  | nil => obtain ⟨c, hc, _⟩ := h; cases hc
  | cons a l ih =>
    by_cases ha : p a = true
    · rw [List.cons_append, List.dropWhile_cons, if_pos ha, List.dropWhile_cons, if_pos ha]
      apply ih
      obtain ⟨c, hc, hpc⟩ := h
      rcases List.mem_cons.mp hc with rfl | hc
      · rw [ha] at hpc; cases hpc
      · exact ⟨c, hc, hpc⟩
    · rw [List.cons_append, List.dropWhile_cons, if_neg ha, List.dropWhile_cons, if_neg ha,
        List.cons_append]

/-- Whitespace around a string does not change its trimmed text. -/
theorem trim_pad (pre s post : JSString) (hpre : pre.all isWhiteSpace = true)
    (hpost : post.all isWhiteSpace = true) : trim (pre ++ s ++ post) = trim s := by
  rw [List.all_eq_true] at hpre hpost
  by_cases hs : ∀ c ∈ s, isWhiteSpace c = true
  · rw [(trim_eq_nil_iff s).2 hs]
    rw [trim_eq_nil_iff]
    intro c hc
    simp only [List.mem_append] at hc
    rcases hc with (hc | hc) | hc
    · exact hpre c hc
    · exact hs c hc
    · exact hpost c hc
  · have hs2 : ∃ c ∈ s, isWhiteSpace c = false := by
      by_contra hcon
      apply hs
      intro c hc
      cases hw : isWhiteSpace c with
      | true => rfl
      | false => exact absurd ⟨c, hc, hw⟩ hcon
    unfold trim trimStart trimEnd
    rw [List.append_assoc, dropWhile_append_left _ _ _ hpre, dropWhile_append_right _ _ _ hs2,
      List.reverse_append, dropWhile_append_left _ _ _ (by simpa using hpost)]

/-- On letters, digits, spaces and plus signs the built-in copies letters and digits and
writes `%20` for a space and `%2B` for a plus sign. -/
theorem encodeURIComponent_plain (t : JSString) (hall : t.all isPlainUnit = true) :
    encodeURIComponent t = .ok (t.flatMap plainEscape) := by
  have h : ∀ c ∈ t, isAsciiAlnum c = true ∨ c = 0x20 ∨ c = 0x2B := by
    intro c hc
    have := List.all_eq_true.1 hall c hc
    simp only [isPlainUnit, Bool.or_eq_true, decide_eq_true_eq] at this
    rcases this with (h | h) | h
    · exact Or.inl h
    · exact Or.inr (Or.inl (Fin.ext h))
    · exact Or.inr (Or.inr (Fin.ext h))
  clear hall
  induction t with
  | nil => rfl
  | cons c t ih =>
    have ih2 := ih (fun x hx => h x (List.mem_cons_of_mem _ hx))
    rw [encodeURIComponent_cons, ih2, List.flatMap_cons]
    rcases h c (List.mem_cons_self _ _) with hc | rfl | rfl
    · have hu : uriUnescaped c = true := by simp [uriUnescaped, hc]
      have h20 : c ≠ 0x20 := by rintro rfl; revert hc; decide
      have h2b : c ≠ 0x2B := by rintro rfl; revert hc; decide
      rw [if_pos hu]
      simp [plainEscape, h20, h2b, Except.map]
    · rfl
    · rfl

/-! ## Trimming keeps well-formedness -/

theorem isWhiteSpace_not_surrogate (c : CodeUnit) (h : isWhiteSpace c = true) :
    isLeadingSurrogate c = false ∧ isTrailingSurrogate c = false := by
  simp only [isWhiteSpace, Bool.or_eq_true, Bool.and_eq_true, decide_eq_true_eq] at h
  simp only [isLeadingSurrogate, isTrailingSurrogate, Bool.and_eq_false_iff,
    decide_eq_false_iff_not]
  omega

theorem isWellFormed_cons_ws (c : CodeUnit) (l : JSString) (h : isWhiteSpace c = true) :
    isWellFormed (c :: l) = isWellFormed l := by
  obtain ⟨h1, h2⟩ := isWhiteSpace_not_surrogate c h
  rw [isWellFormed_cons, h1, h2]; rfl

theorem isWellFormed_dropWhile (l : JSString) :
    isWellFormed (l.dropWhile isWhiteSpace) = isWellFormed l := by
  induction l with
  | nil => rfl
  | cons a l ih =>
    by_cases h : isWhiteSpace a = true
    · rw [List.dropWhile_cons, if_pos h, ih, isWellFormed_cons_ws a l h]
    · rw [List.dropWhile_cons, if_neg h]

theorem isWellFormed_concat_ws (l : JSString) (w : CodeUnit) (h : isWhiteSpace w = true) :
    isWellFormed (l ++ [w]) = isWellFormed l := by
  obtain ⟨hw1, hw2⟩ := isWhiteSpace_not_surrogate w h
  induction l using isWellFormed.induct with
  | case1 => rw [List.nil_append, isWellFormed_cons, hw1, hw2]; rfl
  | case2 c hc =>
    rw [List.singleton_append, isWellFormed_cons, if_pos hc, isWellFormed_cons, if_pos hc]
    simp [hw2]
  | case3 c hc d rest ih =>
    rw [List.cons_append, List.cons_append, isWellFormed_cons, if_pos hc,
      isWellFormed_cons, if_pos hc]
    simp only [ih]
  | case4 c rest hc ht =>
    rw [List.cons_append, isWellFormed_cons, if_neg hc, if_pos ht, isWellFormed_cons,
      if_neg hc, if_pos ht]
  | case5 c rest hc ht ih =>
    rw [List.cons_append, isWellFormed_cons, if_neg hc, if_neg ht, isWellFormed_cons,
      if_neg hc, if_neg ht, ih]

theorem isWellFormed_trimEnd (l : JSString) : isWellFormed (trimEnd l) = isWellFormed l := by
  induction l using List.reverseRecOn with
  | nil => rfl
  | append_singleton l w ih =>
    have e : trimEnd (l ++ [w]) = if isWhiteSpace w = true then trimEnd l else l ++ [w] := by
      unfold trimEnd
      rw [List.reverse_append, List.reverse_singleton, List.singleton_append,
        List.dropWhile_cons]
      split_ifs
      · rfl
      · simp
    rw [e]
    by_cases h : isWhiteSpace w = true
    · rw [if_pos h, ih, isWellFormed_concat_ws l w h]
    · rw [if_neg h]

/-- Trimming neither creates nor removes an unpaired surrogate. -/
theorem isWellFormed_trim (s : JSString) : isWellFormed (trim s) = isWellFormed s := by
  unfold trim trimStart
  rw [isWellFormed_trimEnd, isWellFormed_dropWhile]

/-! ## The click listener and the page -/

theorem attemptSearch_ok_iff (s : JSString) :
    (∃ a, attemptSearch s = .ok a) ↔ isWellFormed s = true := by
  rw [← isWellFormed_trim, attemptSearch_eq]
  by_cases h : trim s = []
  · simp [h, isWellFormed]
  · rw [if_neg h, ← encodeURIComponent_ok_iff]
    cases encodeURIComponent (trim s) <;> simp [Except.map]

theorem attemptSearch_error_iff (s : JSString) :
    attemptSearch s = .error .uriError ↔ isWellFormed s = false := by
  rw [← isWellFormed_trim, attemptSearch_eq]
  by_cases h : trim s = []
  · simp [h, isWellFormed]
  · rw [if_neg h, ← encodeURIComponent_error_iff]
    cases encodeURIComponent (trim s) <;> simp [Except.map]

theorem isWellFormed_of_no_surrogate (t : JSString)
    (h : ∀ c ∈ t, isLeadingSurrogate c = false ∧ isTrailingSurrogate c = false) :
    isWellFormed t = true := by
  induction t with
  | nil => rfl
  | cons c t ih =>
    obtain ⟨h1, h2⟩ := h c (List.mem_cons_self _ _)
    rw [isWellFormed_cons, h1, h2]
    exact ih (fun x hx => h x (List.mem_cons_of_mem _ hx))

theorem encode_trim_ok (s : JSString) (hwf : isWellFormed s = true) :
    ∃ e, encodeURIComponent (trim s) = .ok e :=
  (encodeURIComponent_ok_iff _).2 (by rw [isWellFormed_trim]; exact hwf)

theorem no_delimiter_of_unit (c : CodeUnit) (h : c = percent ∨ uriUnescaped c = true) :
    isDelimiter c = false := by
  rcases h with rfl | h
  · rfl
  · simp only [uriUnescaped, isAsciiAlnum, Bool.or_eq_true, Bool.and_eq_true,
      decide_eq_true_eq] at h
    simp only [isDelimiter, Bool.or_eq_false_iff, decide_eq_false_iff_not]
    omega

theorem delimiterEscape_eq (cp : Nat) :
    delimiterEscape cp =
      if componentUnescaped cp then utf16EncodeCodePoint cp else escapeCodePoint cp := by
  unfold delimiterEscape
  by_cases h1 : cp = 0x20
  · subst h1; decide
  rw [if_neg h1]
  by_cases h2 : cp = 0x2F
  · subst h2; decide
  rw [if_neg h2]
  by_cases h3 : cp = 0x3F
  · subst h3; decide
  rw [if_neg h3]
  by_cases h4 : cp = 0x26
  · subst h4; decide
  rw [if_neg h4]
  by_cases h5 : cp = 0x23
  · subst h5; decide
  rw [if_neg h5]
  simp [percentEncode]

theorem percentEncode_delimiterEscape (cps : List Nat) :
    percentEncode componentUnescaped cps = cps.flatMap delimiterEscape := by
  induction cps with
  | nil => rfl
  | cons cp cps ih =>
    rw [percentEncode_cons, ih, List.flatMap_cons, delimiterEscape_eq]

theorem perform_value (p : Page) (r : Except JSError Action) : (perform p r).value = p.value := by
  unfold perform
  split <;> rfl

theorem dispatch_cases (target : Element) (e : Event) (p : Page) :
    dispatch target e p = clickListener p ∨ dispatch target e p = { page := p, searches := [] } := by
  cases target with
  | searchBtn =>
    cases e with
    | click => exact Or.inl rfl
    | keypress key => exact Or.inr rfl
  | searchInput =>
    cases e with
    | click => exact Or.inr rfl
    | keypress key =>
      by_cases h : key = js "Enter"
      · left; simp [dispatch, keypressListener, buttonClick, h]
      · right; simp [dispatch, keypressListener, h]

theorem clickListener_frame (p : Page) :
    (clickListener p).page.value = p.value ∧
    (trim p.value = [] → (clickListener p).page.href = p.href) ∧
    ((clickListener p).page.href = p.href ∨
      ∃ enc, encodeURIComponent (trim p.value) = .ok enc ∧
        (clickListener p).page.href = base ++ enc) := by
  simp only [clickListener]
  refine ⟨perform_value _ _, ?_, ?_⟩
  · intro h
    rw [attemptSearch_eq, if_pos h]; rfl
  · rw [attemptSearch_eq]
    by_cases h : trim p.value = []
    · rw [if_pos h]; exact Or.inl rfl
    · rw [if_neg h]
      cases he : encodeURIComponent (trim p.value) with
      | error e => exact Or.inl rfl
      | ok enc => exact Or.inr ⟨enc, rfl, rfl⟩

/-! ## The claims -/

set_option maxRecDepth 100000

/-- C1, as stated, fails: on the field value made of one unpaired leading surrogate the
trimmed text is not empty and yet the click listener navigates nowhere (it raises). -/
theorem C1_counterexample :
    trim loneLeading ≠ [] ∧ ¬ ∃ url, attemptSearch loneLeading = .ok (.navigate url) := by
  refine ⟨by decide, ?_⟩
  rintro ⟨url, h⟩
  have e : attemptSearch loneLeading = .error .uriError := by decide
  rw [e] at h
  cases h

/-- C1, amended: the click listener ends as `noOp` exactly when the trimmed text is empty,
which is exactly when every unit of the field is white space (so the empty string and every
whitespace-only string give `noOp`); it navigates exactly when the trimmed text is non-empty
and the text has no unpaired surrogate. -/
theorem C1_noOp_iff (s : JSString) :
    (attemptSearch s = .ok .noOp ↔ trim s = []) ∧
    (trim s = [] ↔ s.all isWhiteSpace = true) ∧
    ((∃ url, attemptSearch s = .ok (.navigate url)) ↔
      (trim s ≠ [] ∧ isWellFormed s = true)) := by
  refine ⟨?_, ?_, ?_⟩
  · rw [attemptSearch_eq]
    by_cases h : trim s = []
    · simp [h]
    · rw [if_neg h]
      cases encodeURIComponent (trim s) <;> simp [Except.map, h]
  · rw [trim_eq_nil_iff, List.all_eq_true]
  · constructor
    · rintro ⟨url, h⟩
      obtain ⟨hne, _⟩ := (attemptSearch_navigate_iff s url).1 h
      exact ⟨hne, (attemptSearch_ok_iff s).1 ⟨_, h⟩⟩
    · rintro ⟨hne, hwf⟩
      obtain ⟨e, he⟩ := encode_trim_ok s hwf
      exact ⟨base ++ e, (attemptSearch_navigate_iff s _).2 ⟨hne, e, he, rfl⟩⟩

/-- C1 at concrete inputs: three spaces give `noOp`, and so does the empty string. -/
theorem C1_noOp_iff_witness :
    attemptSearch (js "   ") = .ok .noOp ∧ attemptSearch (js "") = .ok .noOp :=
  ⟨(C1_noOp_iff (js "   ")).1.2 ((C1_noOp_iff (js "   ")).2.1.2 (by decide)),
   (C1_noOp_iff (js "")).1.2 (by decide)⟩

/-- C2, as stated, fails: on `a` followed by an unpaired trailing surrogate the trimmed text
is not empty and the click listener raises `URIError` instead of navigating. -/
theorem C2_counterexample :
    trim danglingTrailing ≠ [] ∧ attemptSearch danglingTrailing = .error .uriError := by
  decide

/-- C2, amended: when the trimmed text is non-empty and the text has no unpaired surrogate,
the click listener navigates to the base followed by a remainder that `decodeURIComponent`
maps back to the trimmed text. -/
theorem C2_decode_roundtrip (s : JSString) (hne : trim s ≠ [])
    (hwf : isWellFormed s = true) :
    ∃ rest, attemptSearch s = .ok (.navigate (base ++ rest)) ∧
      decodeURIComponent rest = .ok (trim s) := by
  obtain ⟨e, he⟩ := encode_trim_ok s hwf
  exact ⟨e, (attemptSearch_navigate_iff s _).2 ⟨hne, e, he, rfl⟩, decode_encode _ _ he⟩

/-- C2 at a concrete input with accents, an astral character and URL delimiters. -/
theorem C2_decode_roundtrip_witness :
    trim (js " é😀 & co/#? ") ≠ [] ∧ isWellFormed (js " é😀 & co/#? ") = true ∧
    ∃ rest, attemptSearch (js " é😀 & co/#? ") = .ok (.navigate (base ++ rest)) ∧
      decodeURIComponent rest = .ok (trim (js " é😀 & co/#? ")) :=
  ⟨by decide, by decide, C2_decode_roundtrip (js " é😀 & co/#? ") (by decide) (by decide)⟩

/-- C3: when the trimmed text is non-empty and made of ASCII letters, digits, spaces and plus
signs, the click listener navigates to the base followed by the trimmed text with letters and
digits unchanged, each space as `%20` and each plus sign as `%2B`; white space added around
the field value changes nothing. -/
theorem C3_plain_query (s : JSString) (hne : trim s ≠ [])
    (hplain : (trim s).all isPlainUnit = true) :
    attemptSearch s = .ok (.navigate (base ++ (trim s).flatMap plainEscape)) ∧
    ∀ pre post : JSString, pre.all isWhiteSpace = true → post.all isWhiteSpace = true →
      attemptSearch (pre ++ s ++ post) = attemptSearch s := by
  constructor
  · exact (attemptSearch_navigate_iff s _).2
      ⟨hne, _, encodeURIComponent_plain _ hplain, rfl⟩
  · intro pre post hpre hpost
    rw [attemptSearch_eq, attemptSearch_eq s, trim_pad pre s post hpre hpost]

/-- C3 at the three scenarios of the specification. -/
theorem C3_plain_query_witness :
    attemptSearch (js "Albert Einstein") =
      .ok (.navigate (js "https://en.wikipedia.org/wiki/Albert%20Einstein")) ∧
    attemptSearch (js "C++") = .ok (.navigate (js "https://en.wikipedia.org/wiki/C%2B%2B")) ∧
    attemptSearch (js "  Go  ") = .ok (.navigate (js "https://en.wikipedia.org/wiki/Go")) ∧
    attemptSearch (js "  " ++ js "Go" ++ js "  ") = attemptSearch (js "Go") :=
  ⟨(C3_plain_query (js "Albert Einstein") (by decide) (by decide)).1.trans (by decide),
   (C3_plain_query (js "C++") (by decide) (by decide)).1.trans (by decide),
   (C3_plain_query (js "  Go  ") (by decide) (by decide)).1.trans (by decide),
   (C3_plain_query (js "Go") (by decide) (by decide)).2 (js "  ") (js "  ")
     (by decide) (by decide)⟩

/-- C4: every URL the click listener navigates to is the base followed by a remainder with no
literal space, `/`, `?`, `&` or `#`; and whenever the trimmed text is non-empty and the text
has no unpaired surrogate it does navigate, to the base followed by the code points of the
trimmed text with each of those five characters written as its triplet `%20`, `%2F`, `%3F`,
`%26`, `%23`. -/
theorem C4_no_delimiters (s : JSString) :
    (∀ url, attemptSearch s = .ok (.navigate url) →
      ∃ rest, url = base ++ rest ∧ rest.all (fun c => !isDelimiter c) = true) ∧
    (trim s ≠ [] → isWellFormed s = true →
      ∃ cps, codePoints (trim s) = some cps ∧
        attemptSearch s = .ok (.navigate (base ++ cps.flatMap delimiterEscape))) := by
  constructor
  · intro url h
    obtain ⟨_, e, he, rfl⟩ := (attemptSearch_navigate_iff s url).1 h
    refine ⟨e, rfl, ?_⟩
    rw [List.all_eq_true]
    intro c hc
    rw [no_delimiter_of_unit c (encodeURIComponent_units _ _ he c hc)]
    rfl
  · intro hne hwf
    obtain ⟨e, he⟩ := encode_trim_ok s hwf
    have he2 := he
    rw [encodeURIComponent_eq] at he2
    cases hc : codePoints (trim s) with
    | none => rw [hc] at he2; cases he2
    | some cps =>
      rw [hc] at he2
      simp only [Except.ok.injEq] at he2
      refine ⟨cps, rfl, (attemptSearch_navigate_iff s _).2 ⟨hne, e, he, ?_⟩⟩
      rw [← he2, percentEncode_delimiterEscape]

/-- C4 at a concrete input holding all five delimiters. -/
theorem C4_no_delimiters_witness :
    attemptSearch (js "a b/c?d&e#f") =
      .ok (.navigate (js "https://en.wikipedia.org/wiki/a%20b%2Fc%3Fd%26e%23f")) ∧
    (js "a%20b%2Fc%3Fd%26e%23f").all (fun c => !isDelimiter c) = true := by
  obtain ⟨cps, h1, h2⟩ := (C4_no_delimiters (js "a b/c?d&e#f")).2 (by decide) (by decide)
  have e : codePoints (trim (js "a b/c?d&e#f")) =
      some [0x61, 0x20, 0x62, 0x2F, 0x63, 0x3F, 0x64, 0x26, 0x65, 0x23, 0x66] := by decide
  rw [e, Option.some.injEq] at h1
  subst h1
  exact ⟨h2.trans (by decide), by decide⟩

/-- C5, as stated, fails: on a leading surrogate followed by the letter `x` the click listener
does not complete with an action, `encodeURIComponent` raises `URIError`. -/
theorem C5_counterexample :
    encodeURIComponent (trim brokenPair) = .error .uriError ∧
    ¬ ∃ a, attemptSearch brokenPair = .ok a := by
  refine ⟨by decide, ?_⟩
  rintro ⟨a, h⟩
  have e : attemptSearch brokenPair = .error .uriError := by decide
  rw [e] at h
  cases h

/-- C5, amended: the click listener completes with an action exactly on the field values
without an unpaired surrogate, and raises `URIError` exactly on the others; in particular it
completes on every value free of surrogate units, whatever control or special characters it
holds. -/
theorem C5_completes_iff (s : JSString) :
    ((∃ a, attemptSearch s = .ok a) ↔ isWellFormed s = true) ∧
    (attemptSearch s = .error .uriError ↔ isWellFormed s = false) ∧
    (s.all (fun c => !isLeadingSurrogate c && !isTrailingSurrogate c) = true →
      ∃ a, attemptSearch s = .ok a) := by
  refine ⟨attemptSearch_ok_iff s, attemptSearch_error_iff s, ?_⟩
  intro h
  rw [attemptSearch_ok_iff]
  apply isWellFormed_of_no_surrogate
  intro c hc
  have := List.all_eq_true.1 h c hc
  simpa using this

/-- C5 at a concrete input of control characters: NUL, BEL, ESC, DEL. -/
theorem C5_completes_iff_witness :
    ([0x00, 0x07, 0x1B, 0x7F] : JSString).all
        (fun c => !isLeadingSurrogate c && !isTrailingSurrogate c) = true ∧
    ∃ a, attemptSearch [0x00, 0x07, 0x1B, 0x7F] = .ok a :=
  ⟨by decide, (C5_completes_iff [0x00, 0x07, 0x1B, 0x7F]).2.2 (by decide)⟩

/-- C6: a keypress whose key is `Enter`, delivered to the field, has exactly the outcome of a
click delivered to the button on the same page: the same page afterwards and the same single
run of the click listener, ending the same way. -/
theorem C6_enter_same_as_click (p : Page) :
    dispatch .searchInput (.keypress (js "Enter")) p = dispatch .searchBtn .click p ∧
    (dispatch .searchInput (.keypress (js "Enter")) p).searches = [attemptSearch p.value] := by
  constructor
  · simp [dispatch, keypressListener, buttonClick]
  · simp [dispatch, keypressListener, buttonClick, clickListener]

/-- C7: the way a run of the click listener ends depends on the field value alone: two pages
reached by any histories from any starting pages, once the field holds `s`, give the same
result, namely that of `attemptSearch s`; and pages with equal field values give equal
results whatever their location. -/
theorem C7_deterministic (s : JSString) (p1 p2 : Page) (h1 h2 : List Step) :
    (dispatch .searchBtn .click (step (run p1 h1) (.edit s))).searches = [attemptSearch s] ∧
    (dispatch .searchBtn .click (step (run p1 h1) (.edit s))).searches =
      (dispatch .searchBtn .click (step (run p2 h2) (.edit s))).searches ∧
    (p1.value = p2.value →
      (dispatch .searchBtn .click p1).searches = (dispatch .searchBtn .click p2).searches) := by
  refine ⟨rfl, rfl, ?_⟩
  intro h
  simp only [dispatch, clickListener, h]

/-- C7 at concrete pages: different locations and histories, the same field value. -/
theorem C7_deterministic_witness :
    (dispatch .searchBtn .click { value := js "Go", href := js "about:blank" }).searches =
      (dispatch .searchBtn .click { value := js "Go", href := base ++ js "C%2B%2B" }).searches :=
  (C7_deterministic (js "Go") { value := js "Go", href := js "about:blank" }
    { value := js "Go", href := base ++ js "C%2B%2B" } [] []).2.2 rfl

/-- C8: whatever event is delivered to whichever element, the field text is unchanged; when
the trimmed text is empty the location is unchanged too; and the location afterwards is either
the old one or the base followed by the encoding of the trimmed text. -/
theorem C8_frame (p : Page) (target : Element) (e : Event) :
    (dispatch target e p).page.value = p.value ∧
    (trim p.value = [] → (dispatch target e p).page.href = p.href) ∧
    ((dispatch target e p).page.href = p.href ∨
      ∃ enc, encodeURIComponent (trim p.value) = .ok enc ∧
        (dispatch target e p).page.href = base ++ enc) := by
  rcases dispatch_cases target e p with h | h
  · rw [h]; exact clickListener_frame p
  · rw [h]; exact ⟨rfl, fun _ => rfl, Or.inl rfl⟩

/-- C8 at a concrete page: a click with a whitespace-only field leaves both alone. -/
theorem C8_frame_witness :
    (dispatch .searchBtn .click { value := js "   ", href := js "about:blank" }).page =
      { value := js "   ", href := js "about:blank" } :=
  have h := C8_frame { value := js "   ", href := js "about:blank" } .searchBtn .click
  congrArg₂ Page.mk h.1 (h.2.1 (by decide))

/-- C9, as stated, fails: `!` lies outside the RFC 3986 unreserved set, so its RFC 3986
percent-encoding is `%21`, yet the click listener navigates to the base followed by a literal
`!`. -/
theorem C9_counterexample :
    codePoints (trim (js "!")) = some [0x21] ∧ rfc3986Unreserved 0x21 = false ∧
    percentEncode rfc3986Unreserved [0x21] = js "%21" ∧
    attemptSearch (js "!") = .ok (.navigate (base ++ js "!")) ∧
    attemptSearch (js "!") ≠
      .ok (.navigate (base ++ percentEncode rfc3986Unreserved [0x21])) := by
  decide

/-- C9, amended: every URL the click listener navigates to is the base followed by the
percent-encoding of the code points of the trimmed text relative to the RFC 3986 unreserved
set extended by `!`, `*`, the apostrophe, `(` and `)`: the concatenation of pieces, each one
kept character or one `%HH` triplet of an octet with uppercase hexadecimal digits; and it
does navigate whenever the trimmed text is non-empty and the text has no unpaired
surrogate. -/
theorem C9_component_encoding (s : JSString) :
    (∀ url, attemptSearch s = .ok (.navigate url) →
      ∃ cps, codePoints (trim s) = some cps ∧
        url = base ++ percentEncode componentUnescaped cps ∧
        percentEncode componentUnescaped cps =
          (encodedPieces componentUnescaped cps).flatten ∧
        ∀ p ∈ encodedPieces componentUnescaped cps,
          (∃ c : CodeUnit, p = [c] ∧ componentUnescaped c.val = true) ∨
          (∃ b, b < 256 ∧ p = [percent, hexDigit (b / 16), hexDigit (b % 16)])) ∧
    (trim s ≠ [] → isWellFormed s = true → ∃ url, attemptSearch s = .ok (.navigate url)) := by
  constructor
  · intro url h
    obtain ⟨_, e, he, rfl⟩ := (attemptSearch_navigate_iff s url).1 h
    have he2 := he
    rw [encodeURIComponent_eq] at he2
    cases hc : codePoints (trim s) with
    | none => rw [hc] at he2; cases he2
    | some cps =>
      rw [hc] at he2
      simp only [Except.ok.injEq] at he2
      exact ⟨cps, rfl, by rw [he2], percentEncode_eq_flatten _ _,
        encodedPieces_shape cps (codePoints_spec _ cps hc).2⟩
  · intro hne hwf
    obtain ⟨e, he⟩ := encode_trim_ok s hwf
    exact ⟨base ++ e, (attemptSearch_navigate_iff s _).2 ⟨hne, e, he, rfl⟩⟩

/-- C9 at a concrete input mixing kept characters, reserved ones and a non-ASCII letter. -/
theorem C9_component_encoding_witness :
    attemptSearch (js "a-b_c.d~e!*(f) é/") =
        .ok (.navigate (base ++ js "a-b_c.d~e!*(f)%20%C3%A9%2F")) ∧
    js "a-b_c.d~e!*(f)%20%C3%A9%2F" =
      percentEncode componentUnescaped [0x61, 0x2D, 0x62, 0x5F, 0x63, 0x2E, 0x64, 0x7E, 0x65,
        0x21, 0x2A, 0x28, 0x66, 0x29, 0x20, 0xE9, 0x2F] := by
  have hnav : attemptSearch (js "a-b_c.d~e!*(f) é/") =
      .ok (.navigate (base ++ js "a-b_c.d~e!*(f)%20%C3%A9%2F")) := by decide
  obtain ⟨cps, h1, h2, _⟩ := (C9_component_encoding (js "a-b_c.d~e!*(f) é/")).1 _ hnav
  have e : codePoints (trim (js "a-b_c.d~e!*(f) é/")) = some [0x61, 0x2D, 0x62, 0x5F, 0x63, 0x2E,
      0x64, 0x7E, 0x65, 0x21, 0x2A, 0x28, 0x66, 0x29, 0x20, 0xE9, 0x2F] := by decide
  rw [e, Option.some.injEq] at h1
  subst h1
  exact ⟨hnav, List.append_cancel_left h2⟩

/-- C10: a keypress whose key is not `Enter` does nothing: the click listener is not run and
the page, field text and location, stays as it was, also when the trimmed text is
non-empty. -/
theorem C10_other_keys_ignored (p : Page) (key : JSString) (hkey : key ≠ js "Enter") :
    dispatch .searchInput (.keypress key) p = { page := p, searches := [] } := by
  simp [dispatch, keypressListener, hkey]

/-- C10 at a concrete input: the key `a` on a page whose field holds `Go`. -/
theorem C10_other_keys_ignored_witness :
    js "a" ≠ js "Enter" ∧ trim (js "Go") ≠ [] ∧
    dispatch .searchInput (.keypress (js "a")) { value := js "Go", href := js "about:blank" } =
      { page := { value := js "Go", href := js "about:blank" }, searches := [] } :=
  ⟨by decide, by decide,
   C10_other_keys_ignored { value := js "Go", href := js "about:blank" } (js "a") (by decide)⟩

end Crappypedia
